import Mathlib

/-!
Shallow embedding of the ai-group round-robin chat engine
(`chat/ai_group_chat.py`, `chat/terminal_ui.py`).

Conventions of the embedding:
* Python `time.time()` is modelled by an explicit `now : ℚ` parameter threaded
  through every operation that can stamp a message.  Timestamps are rationals;
  the only arithmetic the source performs on them is equality and Python
  truthiness (`t or time.time()`), both captured exactly by `ℚ`.
* A Python `dict` produced by `Message.to_dict` / consumed by
  `Message.from_dict` is modelled by `MessageDict`, a record of `Option` fields
  (`none` = key absent, raising `KeyError` on subscript access).
* Fallible Python code (exceptions propagating to the caller) is modelled with
  `Except String`.
* The persisted file read by `ChatSession.from_history` is modelled by
  `FileContent`: `absent` (`FileNotFoundError`), `malformed`
  (`json.JSONDecodeError` from `json.load`), or `parsed records`.
-/

/-- `Message` (ai_group_chat.py:22-26): sender, content, timestamp. -/
structure Message where
  sender : String
  content : String
  timestamp : ℚ
deriving DecidableEq, Repr

/-- `Message.__init__` (ai_group_chat.py:23-26): the body runs
`self.timestamp = timestamp or time.time()`, so a `None` *or falsy* (`0.0`)
timestamp argument is replaced by the current time. -/
def Message.make (sender content : String) (timestamp : Option ℚ) (now : ℚ) : Message :=
  { sender := sender
    content := content
    timestamp :=
      match timestamp with
      | none => now
      | some t => if t = 0 then now else t }

/-- A Python dict holding (at most) the three persisted fields; `none` models a
missing key. -/
structure MessageDict where
  sender : Option String
  content : Option String
  timestamp : Option ℚ
deriving DecidableEq, Repr

/-- `Message.to_dict` (ai_group_chat.py:28-33). -/
def Message.toDict (m : Message) : MessageDict :=
  { sender := some m.sender, content := some m.content, timestamp := some m.timestamp }

/-- `Message.from_dict` (ai_group_chat.py:35-41): `data["sender"]` and
`data["content"]` raise `KeyError` when absent; `data.get("timestamp", time.time())`
substitutes the current time when absent.  The retrieved values are passed to
`Message.__init__` (hence through `Message.make`). -/
def Message.fromDict (data : MessageDict) (now : ℚ) : Except String Message :=
  match data.sender with
  | none => .error "KeyError: sender"
  | some s =>
    match data.content with
    | none => .error "KeyError: content"
    | some c => .ok (Message.make s c (some (data.timestamp.getD now)) now)

/-- `ChatSession.save_history` (ai_group_chat.py:278-282) serializes the
history as the ordered list of `to_dict` records. -/
def serializeHistory (h : List Message) : List MessageDict :=
  h.map Message.toDict

/-- The loop body of `ChatSession.from_history` (ai_group_chat.py:291-292):
each record is deserialized in order; the first exception aborts the whole
load. -/
def loadRecords (recs : List MessageDict) (now : ℚ) : Except String (List Message) :=
  match recs with
  | [] => .ok []
  | r :: rest =>
    match Message.fromDict r now with
    | .error e => .error e
    | .ok m =>
      match loadRecords rest now with
      | .error e => .error e
      | .ok ms => .ok (m :: ms)

/-- The state read by `ChatSession.from_history` from the history file. -/
inductive FileContent where
  | absent
  | malformed
  | parsed (records : List MessageDict)

/-- `AIAgent` (ai_group_chat.py:43-54) plus the behaviour of its
`process_message` backend call: the reply-producing network call of a concrete
agent is modelled as a pure function from (incoming message, context at call
time) to either a reply text or a raised exception text.  `isHuman` marks
`HumanAgent` instances (`isinstance(agent, HumanAgent)` checks). -/
structure Agent where
  name : String
  context : List Message
  isHuman : Bool
  behave : Message → List Message → Except String String

/-- `ChatSession.__init__` (ai_group_chat.py:218-221): the `agents` dict is an
insertion-ordered map modelled as a list (Python dicts preserve insertion
order); `history` is the message log. -/
structure ChatSession where
  agents : List Agent
  history : List Message

/-- `ChatSession.from_history` (ai_group_chat.py:284-295): a missing file is
swallowed (`except FileNotFoundError: pass`), yielding the fresh empty
session; a `json.JSONDecodeError` or a `KeyError` from `Message.from_dict`
propagates to the caller. -/
def ChatSession.fromHistory (fc : FileContent) (now : ℚ) : Except String ChatSession :=
  match fc with
  | .absent => .ok { agents := [], history := [] }
  | .malformed => .error "json.JSONDecodeError"
  | .parsed recs => (loadRecords recs now).map fun ms => { agents := [], history := ms }

/-- Boolean success test for `Except`. -/
def exceptOk {ε α : Type} : Except ε α → Bool
  | .ok _ => true
  | .error _ => false

section LoadLemmas

/-- A record missing `sender` or `content` makes `Message.from_dict` raise. -/
theorem fromDict_bad_err (d : MessageDict) (now : ℚ)
    (hd : d.sender = none ∨ d.content = none) :
    exceptOk (Message.fromDict d now) = false := by
  rcases d with ⟨ds, dc, dt⟩
  rcases hd with h | h <;> subst h
  · rfl
  · cases ds <;> rfl

/-- If any record of the parsed list is missing `sender` or `content`, the
whole sequential load fails. -/
theorem loadRecords_bad_err (recs : List MessageDict) (now : ℚ) (d : MessageDict)
    (hmem : d ∈ recs) (hd : d.sender = none ∨ d.content = none) :
    exceptOk (loadRecords recs now) = false := by
  induction recs with
  | nil => cases hmem
  | cons r rest ih =>
    rcases List.mem_cons.mp hmem with rfl | hmem'
    · have herr := fromDict_bad_err d now hd
      unfold loadRecords
      cases hfd : Message.fromDict d now with
      | error e => rfl
      | ok m => rw [hfd] at herr; cases herr
    · unfold loadRecords
      cases hfd : Message.fromDict r now with
      | error e => rfl
      | ok m =>
        have hrest := ih hmem'
        cases hlr : loadRecords rest now with
        | error e => rfl
        | ok ms => rw [hlr] at hrest; cases hrest

/-- Serializing then loading reproduces each entry whose timestamp is nonzero. -/
theorem loadRecords_serialize (h : List Message) (now : ℚ)
    (hts : ∀ m ∈ h, m.timestamp ≠ 0) :
    loadRecords (serializeHistory h) now = .ok h := by
  induction h with
  | nil => rfl
  | cons m rest ih =>
    have hm : m.timestamp ≠ 0 := hts m (List.mem_cons_self m rest)
    have hrest : loadRecords (serializeHistory rest) now = .ok rest :=
      ih fun x hx => hts x (List.mem_cons_of_mem m hx)
    show loadRecords (Message.toDict m :: serializeHistory rest) now = .ok (m :: rest)
    unfold loadRecords
    have hfd : Message.fromDict (Message.toDict m) now = .ok m := by
      simp only [Message.fromDict, Message.toDict, Option.getD, Message.make, if_neg hm]
    rw [hfd, hrest]

end LoadLemmas

/-- C6: The claim says `deserialize(serialize(h))` reproduces sender, content
and timestamp exactly for every non-empty history.  It fails for an entry with
timestamp `0`: `Message.__init__` runs `timestamp or time.time()`, and `0.0`
is falsy in Python, so the loaded copy is stamped with the load-time clock
(here `5`) instead of `0`. -/
theorem c6_roundtrip_counterexample :
    loadRecords (serializeHistory [{ sender := "A", content := "hi", timestamp := 0 }]) 5
      = .ok [{ sender := "A", content := "hi", timestamp := 5 }] ∧
    ({ sender := "A", content := "hi", timestamp := 5 } : Message)
      ≠ { sender := "A", content := "hi", timestamp := 0 } := by
  constructor
  · rfl
  · decide

/-- C6 (amended): for every history all of whose entries carry a nonzero
(truthy) timestamp, serializing via `save_history` and loading via
`from_history` reproduces sender, content and timestamp of every entry exactly,
in order. -/
theorem c6_roundtrip (h : List Message) (now : ℚ)
    (hts : ∀ m ∈ h, m.timestamp ≠ 0) :
    ChatSession.fromHistory (.parsed (serializeHistory h)) now
      = .ok { agents := [], history := h } := by
  show Except.map _ (loadRecords (serializeHistory h) now) = _
  rw [loadRecords_serialize h now hts]
  rfl

/-- Witness for `c6_roundtrip` at a concrete one-entry history. -/
theorem c6_roundtrip_witness :
    ChatSession.fromHistory (.parsed (serializeHistory
        [{ sender := "A", content := "hi", timestamp := 7 }])) 5
      = .ok { agents := [], history := [{ sender := "A", content := "hi", timestamp := 7 }] } :=
  c6_roundtrip [{ sender := "A", content := "hi", timestamp := 7 }] 5
    (by intro m hm; simp only [List.mem_singleton] at hm; subst hm; decide)

/-- C7: deserialization substitutes the current time for a missing `timestamp`
field, but a record missing `sender` or `content` raises (`KeyError`), failing
the load of the whole source. -/
theorem c7_missing_fields :
    (∀ (s c : String) (now : ℚ),
        Message.fromDict { sender := some s, content := some c, timestamp := none } now
          = .ok { sender := s, content := c, timestamp := now }) ∧
    (∀ (d : MessageDict) (now : ℚ), d.sender = none →
        exceptOk (Message.fromDict d now) = false) ∧
    (∀ (d : MessageDict) (now : ℚ), d.content = none →
        exceptOk (Message.fromDict d now) = false) ∧
    (∀ (recs : List MessageDict) (now : ℚ) (d : MessageDict), d ∈ recs →
        d.sender = none ∨ d.content = none →
        exceptOk (ChatSession.fromHistory (.parsed recs) now) = false) := by
  refine ⟨?_, ?_, ?_, ?_⟩
  · intro s c now
    simp only [Message.fromDict, Message.make, Option.getD]
    split
    · next hz => rw [hz]
    · rfl
  · intro d now h; exact fromDict_bad_err d now (Or.inl h)
  · intro d now h; exact fromDict_bad_err d now (Or.inr h)
  · intro recs now d hmem hd
    have := loadRecords_bad_err recs now d hmem hd
    show exceptOk (Except.map _ (loadRecords recs now)) = false
    cases hlr : loadRecords recs now with
    | error e => rfl
    | ok ms => rw [hlr] at this; cases this

/-- Witness for `c7_missing_fields` at concrete records. -/
theorem c7_missing_fields_witness :
    Message.fromDict { sender := some "A", content := some "hi", timestamp := none } 3
      = .ok { sender := "A", content := "hi", timestamp := 3 } ∧
    exceptOk (ChatSession.fromHistory (.parsed
        [{ sender := some "A", content := some "hi", timestamp := some 1 },
         { sender := none, content := some "hi", timestamp := some 2 }]) 3) = false :=
  ⟨c7_missing_fields.1 "A" "hi" 3,
   c7_missing_fields.2.2.2
     [{ sender := some "A", content := some "hi", timestamp := some 1 },
      { sender := none, content := some "hi", timestamp := some 2 }] 3
     { sender := none, content := some "hi", timestamp := some 2 }
     (by decide) (Or.inl rfl)⟩

/-- C8: loading from a non-existent source yields a session with empty history
and no error; loading from an existing but malformed source (undecodable JSON,
or a record missing a required field) surfaces an error to the caller instead
of silently skipping bad records. -/
theorem c8_load_failure_policy :
    (∀ now : ℚ, ChatSession.fromHistory .absent now = .ok { agents := [], history := [] }) ∧
    (∀ now : ℚ, exceptOk (ChatSession.fromHistory .malformed now) = false) ∧
    (∀ (recs : List MessageDict) (now : ℚ),
        (∃ d ∈ recs, d.sender = none ∨ d.content = none) →
        exceptOk (ChatSession.fromHistory (.parsed recs) now) = false) := by
  refine ⟨fun _ => rfl, fun _ => rfl, ?_⟩
  intro recs now ⟨d, hmem, hd⟩
  have := loadRecords_bad_err recs now d hmem hd
  show exceptOk (Except.map _ (loadRecords recs now)) = false
  cases hlr : loadRecords recs now with
  | error e => rfl
  | ok ms => rw [hlr] at this; cases this

/-- Witness for `c8_load_failure_policy` at concrete inputs. -/
theorem c8_load_failure_policy_witness :
    ChatSession.fromHistory .absent 3 = .ok { agents := [], history := [] } ∧
    exceptOk (ChatSession.fromHistory .malformed 3) = false ∧
    exceptOk (ChatSession.fromHistory (.parsed
        [{ sender := some "A", content := none, timestamp := some 1 }]) 3) = false :=
  ⟨c8_load_failure_policy.1 3, c8_load_failure_policy.2.1 3,
   c8_load_failure_policy.2.2 [{ sender := some "A", content := none, timestamp := some 1 }] 3
     ⟨{ sender := some "A", content := none, timestamp := some 1 }, by decide, Or.inr rfl⟩⟩

/-! ### Session operations -/

/-- `ChatSession.add_agent` (ai_group_chat.py:223-225): `self.agents[agent.name] = agent`.
A Python dict assignment keeps the original insertion position of an existing
key and replaces its value; a new key is appended at the end. -/
def ChatSession.addAgent (s : ChatSession) (a : Agent) : ChatSession :=
  if s.agents.any (fun b => b.name == a.name) then
    { s with agents := s.agents.map fun b => if b.name == a.name then a else b }
  else
    { s with agents := s.agents ++ [a] }

/-- `ChatSession.add_message` (ai_group_chat.py:227-232): appends to the
history and appends to every registered agent's context
(`AIAgent.update_context`, ai_group_chat.py:52-54). -/
def ChatSession.addMessage (s : ChatSession) (m : Message) : ChatSession :=
  { agents := s.agents.map fun a => { a with context := a.context ++ [m] }
    history := s.history ++ [m] }

/-- `history[-1]`.  In every reachable call site the history is non-empty (the
turn loop runs only after the initial message is appended); the sentinel
default is never observed there. -/
def lastMsg (h : List Message) : Message :=
  (h.getLast?).getD { sender := "", content := "", timestamp := 0 }

/-- `history[-2]` (terminal_ui.py:227), by way of `history[:-1][-1]`. -/
def secondLastMsg (h : List Message) : Message :=
  lastMsg h.dropLast

/-! ### Per-agent request construction (role flattening) -/

/-- One entry of the two-role request sent to a provider backend. -/
structure ChatEntry where
  role : String
  content : String
deriving DecidableEq, Repr

/-- `self.context[-10:]` — the last at most `n` elements of a Python list. -/
def lastN {α : Type} (n : Nat) (l : List α) : List α :=
  l.drop (l.length - n)

/-- `LlamaAgent.process_message` request assembly (ai_group_chat.py:108-124):
system prompt entry, then the last 10 context messages with role `"user"` when
the sender differs from the agent's own name and `"assistant"` otherwise, each
prefixed `"{sender}: "`, then the incoming message as a `"user"` entry with the
same prefix. -/
def llamaRequest (name systemPrompt : String) (ctx : List Message) (incoming : Message) :
    List ChatEntry :=
  [{ role := "system", content := systemPrompt }]
    ++ (lastN 10 ctx).map (fun m =>
        { role := if m.sender ≠ name then "user" else "assistant"
          content := m.sender ++ ": " ++ m.content })
    ++ [{ role := "user", content := incoming.sender ++ ": " ++ incoming.content }]

/-- `GeminiAgent.process_message` request assembly (ai_group_chat.py:74-87):
identical shape, with the self role spelled `"model"`. -/
def geminiRequest (name systemPrompt : String) (ctx : List Message) (incoming : Message) :
    List ChatEntry :=
  [{ role := "system", content := systemPrompt }]
    ++ (lastN 10 ctx).map (fun m =>
        { role := if m.sender ≠ name then "user" else "model"
          content := m.sender ++ ": " ++ m.content })
    ++ [{ role := "user", content := incoming.sender ++ ": " ++ incoming.content }]

/-- The context portion of a constructed request: everything strictly between
the leading system entry and the trailing incoming-message entry. -/
def contextPortion (req : List ChatEntry) : List ChatEntry :=
  (req.drop 1).dropLast

theorem contextPortion_llama (name sp : String) (ctx : List Message) (inc : Message) :
    contextPortion (llamaRequest name sp ctx inc)
      = (lastN 10 ctx).map (fun m =>
          { role := if m.sender ≠ name then "user" else "assistant"
            content := m.sender ++ ": " ++ m.content }) := by
  show ((lastN 10 ctx).map _ ++ [_]).dropLast = _
  rw [List.dropLast_concat]

theorem contextPortion_gemini (name sp : String) (ctx : List Message) (inc : Message) :
    contextPortion (geminiRequest name sp ctx inc)
      = (lastN 10 ctx).map (fun m =>
          { role := if m.sender ≠ name then "user" else "model"
            content := m.sender ++ ": " ++ m.content }) := by
  show ((lastN 10 ctx).map _ ++ [_]).dropLast = _
  rw [List.dropLast_concat]

/-- `Forall₂` against the pointwise image of a map. -/
theorem forall₂_map_self {α β : Type} (l : List α) (f : α → β) (R : α → β → Prop)
    (h : ∀ a ∈ l, R a (f a)) : List.Forall₂ R l (l.map f) := by
  induction l with
  | nil => exact List.Forall₂.nil
  | cons x xs ih =>
    exact List.Forall₂.cons (h x (List.mem_cons_self x xs))
      (ih fun a ha => h a (List.mem_cons_of_mem x ha))

/-- C4: in the two-role request built by an agent's reply operation, exactly
the context messages whose sender equals the agent's own name get the self
role (`"assistant"` for the Groq/Llama format, `"model"` for the Gemini
format), every other message gets the other-party role `"user"`, and every
context message's text is prefixed with its original sender's name. -/
theorem c4_role_flattening (name sp : String) (ctx : List Message) (inc : Message) :
    List.Forall₂ (fun (m : Message) (e : ChatEntry) =>
        (e.role = "assistant" ↔ m.sender = name) ∧
        (e.role = "user" ↔ m.sender ≠ name) ∧
        e.content = m.sender ++ ": " ++ m.content)
      (lastN 10 ctx) (contextPortion (llamaRequest name sp ctx inc)) ∧
    List.Forall₂ (fun (m : Message) (e : ChatEntry) =>
        (e.role = "model" ↔ m.sender = name) ∧
        (e.role = "user" ↔ m.sender ≠ name) ∧
        e.content = m.sender ++ ": " ++ m.content)
      (lastN 10 ctx) (contextPortion (geminiRequest name sp ctx inc)) := by
  constructor
  · rw [contextPortion_llama]
    refine forall₂_map_self _ _ _ fun m _ => ?_
    by_cases h : m.sender = name
    · simp [h]
    · simp [h]
  · rw [contextPortion_gemini]
    refine forall₂_map_self _ _ _ fun m _ => ?_
    by_cases h : m.sender = name
    · simp [h]
    · simp [h]

/-- The context list of the agent registered under `n`, empty if absent
(reads `agent.context` through the session's agents dict). -/
def agentContextIn (s : ChatSession) (n : String) : List Message :=
  ((s.agents.find? (fun a => a.name == n)).map (fun a => a.context)).getD []

/-- Concrete Llama-style agent used for the C5 scenario. -/
def llamaA : Agent :=
  { name := "Llama", context := [], isHuman := false, behave := fun _ _ => .ok "ok" }

/-- Concrete human agent used for the C5 scenario. -/
def humanA : Agent :=
  { name := "Human", context := [], isHuman := true, behave := fun _ _ => .ok "" }

/-- The C5 scenario: a fresh session, one human message added via
`add_message`, then the agent's reply call on `history[-1]` exactly as
`ChatSession.run` performs it. -/
def c5Session : ChatSession :=
  ChatSession.addMessage { agents := [llamaA, humanA], history := [] }
    { sender := "Human", content := "hello", timestamp := 1 }

/-- C5: the claim says the context portion consists of the most recent
messages *strictly preceding* the incoming message.  In the engine's flow the
incoming message has already been pushed into every agent's context by
`add_message` before `process_message` runs, so the context portion contains
the incoming message itself: with a single message `Human: hello` in history,
a strictly-preceding window would be empty, yet the constructed request
repeats `Human: hello` both as a context entry and as the incoming entry. -/
theorem c5_window_counterexample :
    c5Session.history = [{ sender := "Human", content := "hello", timestamp := 1 }] ∧
    lastMsg c5Session.history = { sender := "Human", content := "hello", timestamp := 1 } ∧
    llamaRequest "Llama" "sys" (agentContextIn c5Session "Llama") (lastMsg c5Session.history)
      = [{ role := "system", content := "sys" },
         { role := "user", content := "Human: hello" },
         { role := "user", content := "Human: hello" }] := by
  refine ⟨rfl, rfl, rfl⟩

/-- `find?` by name commutes with a context-only update of every agent. -/
theorem find?_contextMap (l : List Agent) (m : Message) (n : String) :
    (l.map (fun a => { a with context := a.context ++ [m] })).find? (fun a => a.name == n)
      = (l.find? (fun a => a.name == n)).map
          (fun a => { a with context := a.context ++ [m] }) := by
  induction l with
  | nil => rfl
  | cons a t ih =>
    by_cases h : (a.name == n) = true
    · simp [List.find?_cons, h]
    · rw [Bool.not_eq_true] at h
      simp [List.find?_cons, h, ih]

/-- `add_message` extends the context of a registered agent by the new
message (and touches nothing else of it). -/
theorem agentContextIn_addMessage (s : ChatSession) (m : Message) (n : String)
    (h : (s.agents.find? (fun a => a.name == n)).isSome = true) :
    agentContextIn (s.addMessage m) n = agentContextIn s n ++ [m] := by
  unfold agentContextIn ChatSession.addMessage
  rw [find?_contextMap]
  rcases hf : s.agents.find? (fun a => a.name == n) with _ | a
  · rw [hf] at h; cases h
  · rw [hf]; rfl

/-- The bounded window of a list ending in `m` still ends in `m`. -/
theorem lastN_getLast?_concat (l : List Message) (m : Message) :
    (lastN 10 (l ++ [m])).getLast? = some m := by
  unfold lastN
  have hk : (l ++ [m]).length - 10 ≤ l.length := by
    simp only [List.length_append, List.length_singleton]
    omega
  rw [List.drop_append_of_le_length hk, List.getLast?_concat]

/-- C5 (amended): the context portion of a constructed request is the image of
the last at-most-10 messages of the agent's accumulated context, in
chronological order (a suffix of that context).  The window is drawn from the
agent's own context, which in the engine's flow already contains the current
incoming message (pushed by `add_message` before the reply call), so the
window ends with the incoming message itself rather than containing only
messages strictly preceding it. -/
theorem c5_window_amended :
    (∀ (name sp : String) (ctx : List Message) (inc : Message),
        contextPortion (llamaRequest name sp ctx inc)
          = (lastN 10 ctx).map (fun m =>
              { role := if m.sender ≠ name then "user" else "assistant"
                content := m.sender ++ ": " ++ m.content }) ∧
        (contextPortion (llamaRequest name sp ctx inc)).length ≤ 10 ∧
        lastN 10 ctx <:+ ctx) ∧
    (∀ (s : ChatSession) (m : Message) (n : String),
        (s.agents.find? (fun a => a.name == n)).isSome = true →
        lastMsg (s.addMessage m).history = m ∧
        (lastN 10 (agentContextIn (s.addMessage m) n)).getLast? = some m) := by
  constructor
  · intro name sp ctx inc
    refine ⟨contextPortion_llama name sp ctx inc, ?_, ?_⟩
    · rw [contextPortion_llama, List.length_map]
      unfold lastN
      rw [List.length_drop]
      omega
    · exact List.drop_suffix _ _
  · intro s m n h
    refine ⟨?_, ?_⟩
    · unfold lastMsg ChatSession.addMessage
      rw [List.getLast?_concat]
      rfl
    · rw [agentContextIn_addMessage s m n h]
      exact lastN_getLast?_concat _ _

/-- Witness for `c5_window_amended` on the concrete C5 scenario. -/
theorem c5_window_amended_witness :
    contextPortion (llamaRequest "Llama" "sys" [] { sender := "Human", content := "hello", timestamp := 1 }) = [] ∧
    lastMsg c5Session.history = { sender := "Human", content := "hello", timestamp := 1 } ∧
    (lastN 10 (agentContextIn c5Session "Llama")).getLast?
      = some { sender := "Human", content := "hello", timestamp := 1 } := by
  refine ⟨(c5_window_amended.1 "Llama" "sys" [] _).1, ?_, ?_⟩
  · exact (c5_window_amended.2 { agents := [llamaA, humanA], history := [] }
      { sender := "Human", content := "hello", timestamp := 1 } "Llama" rfl).1
  · exact (c5_window_amended.2 { agents := [llamaA, humanA], history := [] }
      { sender := "Human", content := "hello", timestamp := 1 } "Llama" rfl).2

/-! ### The turn engine -/

/-- Python `str.lower()`; modelled on the ASCII range, which covers the exit
tokens the engine compares against. -/
def pyLower (s : String) : String := String.mk (s.data.map Char.toLower)

/-- The exit tokens checked against the lowercased human input
(ai_group_chat.py:268, terminal_ui.py:195). -/
def exitTokens : List String := ["exit", "quit", "bye"]

/-- The automated-agent round of `ChatSession.run` (ai_group_chat.py:247-259):
for each registered agent in order, skipping `HumanAgent`s, call
`process_message(self.history[-1])` and `add_message` the reply.  There is no
`try`/`except` around the call, so a raised exception unwinds out of the round
(and out of `run`, whose handler only catches `KeyboardInterrupt`); the error
value carries the failing agent's name, the exception text, and the session as
it stood when the exception was raised. -/
def runRoundConsole (now : ℚ) (names : List String) (s : ChatSession) :
    Except (String × String × ChatSession) ChatSession :=
  match names with
  | [] => .ok s
  | n :: rest =>
    match s.agents.find? (fun a => a.name == n) with
    | none => runRoundConsole now rest s
    | some a =>
      if a.isHuman then runRoundConsole now rest s
      else
        match a.behave (lastMsg s.history) a.context with
        | .error e => .error (n, e, s)
        | .ok c =>
          runRoundConsole now rest
            (s.addMessage { sender := n, content := c, timestamp := now })

/-- How a `ChatSession.run` invocation ends.  `saved` lists the histories
passed to `save_history`, in order: the normal exit path saves exactly once
(ai_group_chat.py:276); an uncaught agent exception unwinds past the save, so
nothing is saved; `outOfInput` is the model's fuel/script exhaustion artifact
for the infinite loop. -/
inductive RunOutcome where
  | terminated (s : ChatSession) (saved : List (List Message))
  | crashed (agent err : String) (s : ChatSession) (saved : List (List Message))
  | outOfInput (s : ChatSession) (saved : List (List Message))

/-- `next((name for name, agent in self.agents.items() if isinstance(agent,
HumanAgent)), ...)` (ai_group_chat.py:237, 262). -/
def humanName? (s : ChatSession) : Option String :=
  (s.agents.find? (fun a => a.isHuman)).map (fun a => a.name)

/-- The `while True` loop of `ChatSession.run` (ai_group_chat.py:246-276):
one automated round, then (if a human agent is registered) one human input,
append it, and break on an exit token, saving the full history once. -/
def runConsoleLoop (fuel : Nat) (now : ℚ) (inputs : List String) (s : ChatSession) :
    RunOutcome :=
  match fuel with
  | 0 => .outOfInput s []
  | fuel + 1 =>
    match runRoundConsole now (s.agents.map (fun a => a.name)) s with
    | .error (n, e, s') => .crashed n e s' []
    | .ok s1 =>
      match humanName? s1 with
      | none => runConsoleLoop fuel now inputs s1
      | some hn =>
        match inputs with
        | [] => .outOfInput s1 []
        | i :: rest =>
          let s2 := s1.addMessage { sender := hn, content := i, timestamp := now }
          if exitTokens.contains (pyLower i) = true then .terminated s2 [s2.history]
          else runConsoleLoop fuel now rest s2

/-- `ChatSession.run` (ai_group_chat.py:234-276): append the initial human
message, then enter the loop. -/
def runConsole (fuel : Nat) (now : ℚ) (initialPrompt : String) (inputs : List String)
    (s : ChatSession) : RunOutcome :=
  runConsoleLoop fuel now inputs
    (s.addMessage
      { sender := (humanName? s).getD "Human", content := initialPrompt, timestamp := now })

/-- Function-free view of an outcome: tag line, final history, saved histories. -/
def RunOutcome.describe : RunOutcome → String × List Message × List (List Message)
  | .terminated s sv => ("terminated", s.history, sv)
  | .crashed n e s sv => ("crashed " ++ n ++ ": " ++ e, s.history, sv)
  | .outOfInput s sv => ("outOfInput", s.history, sv)

/-- The transient placeholder of the terminal UI (terminal_ui.py:218-221). -/
def thinkingMsg (n : String) (now : ℚ) : Message :=
  { sender := "System", content := n ++ " is thinking...", timestamp := now }

/-- The diagnostic the terminal UI substitutes for a failed reply
(terminal_ui.py:234-237). -/
def errorReplyMsg (n e : String) (now : ℚ) : Message :=
  { sender := "System", content := "Error getting response from " ++ n ++ ": " ++ e
    timestamp := now }

/-- `self.session.history.pop()` (terminal_ui.py:229, 239): removes the last
history entry only — agent contexts are not rolled back. -/
def popHistory (s : ChatSession) : ChatSession :=
  { s with history := s.history.dropLast }

/-- The agent-response loop of `TerminalUI.run` (terminal_ui.py:213-241): for
each non-human agent, `add_message` a thinking placeholder, call
`process_message(self.session.history[-2])` (the agent's context, mutated by
`add_message`, now ends with the placeholder), then pop the placeholder from
the history and `add_message` either the real reply or, on exception, a
System diagnostic.  The second component records the history after every
history mutation (each `add_message` and each `pop`), in order. -/
def runRoundUI (now : ℚ) (names : List String) (s : ChatSession) :
    ChatSession × List (List Message) :=
  match names with
  | [] => (s, [])
  | n :: rest =>
    match s.agents.find? (fun a => a.name == n) with
    | none => runRoundUI now rest s
    | some a =>
      if a.isHuman then runRoundUI now rest s
      else
        let s1 := s.addMessage (thinkingMsg n now)
        let s2 :=
          match a.behave (secondLastMsg s1.history) (a.context ++ [thinkingMsg n now]) with
          | .ok c => (popHistory s1).addMessage { sender := n, content := c, timestamp := now }
          | .error e => (popHistory s1).addMessage (errorReplyMsg n e now)
        let r := runRoundUI now rest s2
        (r.1, s1.history :: (popHistory s1).history :: s2.history :: r.2)

/-- Automated agent whose backend call always raises. -/
def agentX : Agent :=
  { name := "X", context := [], isHuman := false, behave := fun _ _ => .error "boom" }

/-- Automated agent whose backend call always succeeds. -/
def agentY : Agent :=
  { name := "Y", context := [], isHuman := false, behave := fun _ _ => .ok "hi" }

/-- Human agent for the C1 scenario. -/
def humanH : Agent :=
  { name := "Human", context := [], isHuman := true, behave := fun _ _ => .ok "" }

/-- Session with agents `[X, Y, Human]`, X failing, Y healthy. -/
def c1Session : ChatSession :=
  { agents := [agentX, agentY, humanH], history := [] }

/-- C1: the claim says that in every round a failing agent is replaced by a
System diagnostic and the round continues.  In console mode
(`ChatSession.run`) there is no per-agent exception handling: with agents
`[X, Y, Human]` where X's reply raises `boom`, the run crashes inside the
first round — the final history is just the initial prompt (no System
diagnostic, no reply from Y) and nothing is saved. -/
theorem c1_containment_counterexample :
    (runConsole 3 1 "hello" ["ok"] c1Session).describe
      = ("crashed X: boom", [{ sender := "Human", content := "hello", timestamp := 1 }], []) :=
  rfl

/-- C1 (amended): the failure containment holds in the terminal-UI loop
(`TerminalUI.run`): with automated agents `[X, Y]` where X's reply raises `e`
and Y's succeeds with `cy`, the round appends the System diagnostic
identifying X and the reason in X's slot, then still gives Y its turn — the
round is never aborted.  In the console loop (`ChatSession.run`) the exception
propagates instead (see the counterexample). -/
theorem c1_ui_containment (now : ℚ) (nX nY e cy : String)
    (ctxX ctxY : List Message) (h : List Message)
    (bX bY : Message → List Message → Except String String)
    (hne : nX ≠ nY)
    (hbX : ∀ m c, bX m c = .error e)
    (hbY : ∀ m c, bY m c = .ok cy) :
    (runRoundUI now [nX, nY]
        { agents := [{ name := nX, context := ctxX, isHuman := false, behave := bX },
                     { name := nY, context := ctxY, isHuman := false, behave := bY }]
          history := h }).1.history
      = h ++ [errorReplyMsg nX e now, { sender := nY, content := cy, timestamp := now }] := by
  have hXX : (nX == nX) = true := beq_self_eq_true nX
  have hYY : (nY == nY) = true := beq_self_eq_true nY
  have hXY : (nX == nY) = false := by
    rw [beq_eq_false_iff_ne]
    exact hne
  simp only [runRoundUI, ChatSession.addMessage, popHistory, List.find?_cons, hXX, hYY, hXY,
    List.map_cons, List.map_nil, hbX, hbY, if_true, if_false, List.dropLast_concat,
    Bool.false_eq_true, List.append_assoc, List.singleton_append, List.cons_append,
    List.nil_append]
  rw [show h ++ [errorReplyMsg nX e now, thinkingMsg nY now]
        = (h ++ [errorReplyMsg nX e now]) ++ [thinkingMsg nY now] by
      rw [List.append_assoc]; rfl,
    List.dropLast_concat, List.append_assoc]
  rfl

/-- Witness for `c1_ui_containment` at a concrete failing/healthy agent pair. -/
theorem c1_ui_containment_witness :
    (runRoundUI 1 ["X", "Y"]
        { agents := [{ name := "X", context := [], isHuman := false,
                       behave := fun _ _ => .error "boom" },
                     { name := "Y", context := [], isHuman := false,
                       behave := fun _ _ => .ok "hi" }]
          history := [] }).1.history
      = [errorReplyMsg "X" "boom" 1, { sender := "Y", content := "hi", timestamp := 1 }] := by
  have hc := c1_ui_containment 1 "X" "Y" "boom" "hi" [] [] []
    (fun _ _ => .error "boom") (fun _ _ => .ok "hi")
    (by decide) (fun _ _ => rfl) (fun _ _ => rfl)
  simpa using hc

/-- Welcome message seeding the C2 scenario (terminal_ui.py:183-187). -/
def c2w : Message :=
  { sender := "System", content := "Welcome to the AI Group Chat!", timestamp := 1 }

/-- C2: the claim says the history's length never decreases and every earlier
full read is a prefix of every later one.  The terminal-UI loop violates this:
during an agent's turn it appends a `"X is thinking..."` placeholder and then
`pop`s it (terminal_ui.py:222, 229/239).  The recorded history snapshots for
one such turn go `[w, thinking]`, `[w]`, `[w, diagnostic]`: the second read is
shorter than the first and the first is not a prefix of the second. -/
theorem c2_append_only_counterexample :
    (runRoundUI 1 ["X"] { agents := [agentX], history := [c2w] }).2
      = [[c2w, thinkingMsg "X" 1], [c2w], [c2w, errorReplyMsg "X" "boom" 1]] ∧
    ¬ [c2w, thinkingMsg "X" 1] <+: [c2w] ∧
    ([c2w] : List Message).length < [c2w, thinkingMsg "X" 1].length := by
  refine ⟨rfl, ?_, by decide⟩
  intro hpre
  have := hpre.length_le
  simp at this

/-- C2 (amended): the history is append-only across `add_message` calls and
across whole rounds — any earlier history is a prefix of any later one when
observed between operations of `ChatSession` or at round boundaries of either
loop.  Within a terminal-UI agent turn the history transiently shrinks when
the thinking placeholder is popped (see the counterexample). -/
theorem c2_append_only_amended :
    (∀ (s : ChatSession) (msgs : List Message),
        s.history <+: (msgs.foldl ChatSession.addMessage s).history) ∧
    (∀ (now : ℚ) (names : List String) (s : ChatSession),
        s.history <+: (runRoundUI now names s).1.history) ∧
    (∀ (now : ℚ) (names : List String) (s s' : ChatSession),
        runRoundConsole now names s = .ok s' → s.history <+: s'.history) := by
  refine ⟨?_, ?_, ?_⟩
  · intro s msgs
    induction msgs generalizing s with
    | nil => exact List.prefix_rfl
    | cons m rest ih =>
      refine List.IsPrefix.trans ?_ (ih (s.addMessage m))
      exact List.prefix_append s.history [m]
  · intro now names s
    induction names generalizing s with
    | nil => exact List.prefix_rfl
    | cons n rest ih =>
      rw [runRoundUI]
      cases hf : s.agents.find? (fun a => a.name == n) with
      | none => exact ih s
      | some a =>
        by_cases hh : a.isHuman = true
        · simp only [hh, if_true]
          exact ih s
        · rw [Bool.not_eq_true] at hh
          simp only [hh, Bool.false_eq_true, if_false]
          cases hb : a.behave (secondLastMsg (s.addMessage (thinkingMsg n now)).history)
              (a.context ++ [thinkingMsg n now]) with
          | ok c =>
            simp only
            refine List.IsPrefix.trans ?_ (ih _)
            show s.history <+: ((s.addMessage (thinkingMsg n now)).history.dropLast ++ _)
            rw [show (s.addMessage (thinkingMsg n now)).history
                  = s.history ++ [thinkingMsg n now] from rfl, List.dropLast_concat]
            exact List.prefix_append _ _
          | error e =>
            simp only
            refine List.IsPrefix.trans ?_ (ih _)
            show s.history <+: ((s.addMessage (thinkingMsg n now)).history.dropLast ++ _)
            rw [show (s.addMessage (thinkingMsg n now)).history
                  = s.history ++ [thinkingMsg n now] from rfl, List.dropLast_concat]
            exact List.prefix_append _ _
  · intro now names s s' hrun
    induction names generalizing s with
    | nil =>
      cases hrun
      exact List.prefix_rfl
    | cons n rest ih =>
      rw [runRoundConsole] at hrun
      split at hrun
      · exact ih s hrun
      · split at hrun
        · exact ih s hrun
        · split at hrun
          · cases hrun
          · exact List.IsPrefix.trans (List.prefix_append _ _) (ih _ hrun)

/-- Witness for `c2_append_only_amended` (console-round clause) on a concrete
one-agent round. -/
theorem c2_append_only_amended_witness :
    [({ sender := "Human", content := "hello", timestamp := 1 } : Message)] <+:
      [{ sender := "Human", content := "hello", timestamp := 1 },
       { sender := "Y", content := "hi", timestamp := 1 }] := by
  have h := c2_append_only_amended.2.2 1 ["Y"]
    { agents := [agentY], history := [{ sender := "Human", content := "hello", timestamp := 1 }] }
    (ChatSession.addMessage
      { agents := [agentY], history := [{ sender := "Human", content := "hello", timestamp := 1 }] }
      { sender := "Y", content := "hi", timestamp := 1 }) rfl
  exact h

/-- `history[-1]` of a freshly appended history is the appended message. -/
theorem lastMsg_concat (l : List Message) (m : Message) : lastMsg (l ++ [m]) = m := by
  unfold lastMsg
  rw [List.getLast?_concat]
  rfl

/-- `history[:-1]` of a list ending in two known entries. -/
theorem dropLast_concat2 (l : List Message) (a b : Message) :
    (l ++ [a, b]).dropLast = l ++ [a] := by
  rw [show l ++ [a, b] = (l ++ [a]) ++ [b] by rw [List.append_assoc]; rfl,
    List.dropLast_concat]

/-- `history[-2]` of a freshly appended history is the previous last entry. -/
theorem secondLastMsg_concat (l : List Message) (m : Message) :
    secondLastMsg (l ++ [m]) = lastMsg l := by
  unfold secondLastMsg
  rw [List.dropLast_concat]

theorem secondLastMsg_concat2 (l : List Message) (a b : Message) :
    secondLastMsg (l ++ [a, b]) = a := by
  unfold secondLastMsg
  rw [dropLast_concat2, lastMsg_concat]

/-- C3: in a round over automated agents `[X, Y]` in registration order, X's
successful reply `mX` is appended (to the history and to every agent's
context) before Y's turn, and Y's reply call then receives `mX` as the
incoming message with a context containing `mX` — the round's result is
determined by `bY` evaluated at exactly those arguments.  First conjunct: the
console round (`ChatSession.run`, incoming `history[-1]`, context ending in
`mX`).  Second conjunct: the terminal-UI round (`TerminalUI.run`, incoming
`history[-2]` past the thinking placeholder, context containing `mX` among
the placeholders). -/
theorem c3_same_round_visibility (now : ℚ) (nX nY cx cy : String)
    (ctxX ctxY h : List Message)
    (bX bY : Message → List Message → Except String String)
    (hne : nX ≠ nY)
    (hbX : bX (lastMsg h) ctxX = .ok cx)
    (hbY : bY { sender := nX, content := cx, timestamp := now }
             (ctxY ++ [{ sender := nX, content := cx, timestamp := now }]) = .ok cy)
    (hbXui : bX (lastMsg h) (ctxX ++ [thinkingMsg nX now]) = .ok cx)
    (hbYui : bY { sender := nX, content := cx, timestamp := now }
               (ctxY ++ [thinkingMsg nX now,
                         { sender := nX, content := cx, timestamp := now },
                         thinkingMsg nY now]) = .ok cy) :
    (runRoundConsole now [nX, nY]
        { agents := [{ name := nX, context := ctxX, isHuman := false, behave := bX },
                     { name := nY, context := ctxY, isHuman := false, behave := bY }]
          history := h }).map
        (fun s' => (s'.history, s'.agents.map (fun a => a.context)))
      = .ok (h ++ [{ sender := nX, content := cx, timestamp := now },
                   { sender := nY, content := cy, timestamp := now }],
             [ctxX ++ [{ sender := nX, content := cx, timestamp := now },
                       { sender := nY, content := cy, timestamp := now }],
              ctxY ++ [{ sender := nX, content := cx, timestamp := now },
                       { sender := nY, content := cy, timestamp := now }]]) ∧
    (runRoundUI now [nX, nY]
        { agents := [{ name := nX, context := ctxX, isHuman := false, behave := bX },
                     { name := nY, context := ctxY, isHuman := false, behave := bY }]
          history := h }).1.history
      = h ++ [{ sender := nX, content := cx, timestamp := now },
              { sender := nY, content := cy, timestamp := now }] := by
  have hXX : (nX == nX) = true := beq_self_eq_true nX
  have hYY : (nY == nY) = true := beq_self_eq_true nY
  have hXY : (nX == nY) = false := by
    rw [beq_eq_false_iff_ne]
    exact hne
  constructor
  · simp only [runRoundConsole, ChatSession.addMessage, List.find?_cons, hXX, hYY, hXY,
      List.map_cons, List.map_nil, if_false, Bool.false_eq_true, hbX, lastMsg_concat, hbY,
      Except.map, List.append_assoc, List.singleton_append, List.cons_append, List.nil_append]
  · simp only [runRoundUI, ChatSession.addMessage, popHistory, List.find?_cons, hXX, hYY, hXY,
      List.map_cons, List.map_nil, if_false, Bool.false_eq_true,
      secondLastMsg_concat, secondLastMsg_concat2, lastMsg_concat,
      List.dropLast_concat, dropLast_concat2, hbXui, hbYui,
      List.append_assoc, List.singleton_append, List.cons_append, List.nil_append]

/-- Witness for `c3_same_round_visibility` on a concrete two-agent round. -/
theorem c3_same_round_visibility_witness :
    ((runRoundConsole 1 ["X", "Y"]
        { agents := [{ name := "X", context := [], isHuman := false,
                       behave := fun _ _ => .ok "a" },
                     { name := "Y", context := [], isHuman := false,
                       behave := fun _ _ => .ok "b" }]
          history := [{ sender := "Human", content := "hello", timestamp := 1 }] }).map
        (fun s' => (s'.history, s'.agents.map (fun a => a.context)))
      = .ok ([{ sender := "Human", content := "hello", timestamp := 1 }]
               ++ [{ sender := "X", content := "a", timestamp := 1 },
                   { sender := "Y", content := "b", timestamp := 1 }],
             [[] ++ [{ sender := "X", content := "a", timestamp := 1 },
                     { sender := "Y", content := "b", timestamp := 1 }],
              [] ++ [{ sender := "X", content := "a", timestamp := 1 },
                     { sender := "Y", content := "b", timestamp := 1 }]])) ∧
    (runRoundUI 1 ["X", "Y"]
        { agents := [{ name := "X", context := [], isHuman := false,
                       behave := fun _ _ => .ok "a" },
                     { name := "Y", context := [], isHuman := false,
                       behave := fun _ _ => .ok "b" }]
          history := [{ sender := "Human", content := "hello", timestamp := 1 }] }).1.history
      = [{ sender := "Human", content := "hello", timestamp := 1 }]
          ++ [{ sender := "X", content := "a", timestamp := 1 },
              { sender := "Y", content := "b", timestamp := 1 }] :=
  c3_same_round_visibility 1 "X" "Y" "a" "b" [] []
    [{ sender := "Human", content := "hello", timestamp := 1 }]
    (fun _ _ => .ok "a") (fun _ _ => .ok "b") (by decide) rfl rfl rfl rfl

/-- Every automated agent's backend call succeeds on all inputs. -/
def AgentsTotal (s : ChatSession) : Prop :=
  ∀ a ∈ s.agents, a.isHuman = false → ∀ m c, exceptOk (a.behave m c) = true

theorem agentsTotal_addMessage (s : ChatSession) (m : Message) (ht : AgentsTotal s) :
    AgentsTotal (s.addMessage m) := by
  intro b hb hbh mm cc
  obtain ⟨a, ha, rfl⟩ := List.mem_map.mp hb
  exact ht a ha hbh mm cc

/-- The registered human (if any) keeps its name across `add_message`. -/
theorem find?_isHuman_contextMap (l : List Agent) (m : Message) :
    ((l.map (fun a => { a with context := a.context ++ [m] })).find?
        (fun a => a.isHuman)).map (fun a => a.name)
      = (l.find? (fun a => a.isHuman)).map (fun a => a.name) := by
  rw [List.find?_map, Option.map_map]
  rfl

theorem humanName?_addMessage (s : ChatSession) (m : Message) :
    humanName? (s.addMessage m) = humanName? s :=
  find?_isHuman_contextMap s.agents m

/-- Unfolding a console round step when the name resolves to a human agent. -/
theorem runRoundConsole_cons_human (now : ℚ) (n : String) (rest : List String)
    (s : ChatSession) (a : Agent)
    (hf : s.agents.find? (fun x => x.name == n) = some a) (hh : a.isHuman = true) :
    runRoundConsole now (n :: rest) s = runRoundConsole now rest s := by
  rw [runRoundConsole, hf]
  exact if_pos hh

/-- Unfolding a console round step at an automated agent: the step is the
backend call's outcome. -/
theorem runRoundConsole_cons_auto (now : ℚ) (n : String) (rest : List String)
    (s : ChatSession) (a : Agent)
    (hf : s.agents.find? (fun x => x.name == n) = some a) (hh : a.isHuman = false) :
    runRoundConsole now (n :: rest) s
      = match a.behave (lastMsg s.history) a.context with
        | .error e => .error (n, e, s)
        | .ok c =>
          runRoundConsole now rest
            (s.addMessage { sender := n, content := c, timestamp := now }) := by
  rw [runRoundConsole, hf]
  exact if_neg (by simp [hh])

/-- If every automated agent is healthy, a console round completes, giving a
session that is still healthy and has the same registered human. -/
theorem roundConsole_ok (now : ℚ) (names : List String) (s : ChatSession)
    (ht : AgentsTotal s) :
    ∃ s', runRoundConsole now names s = .ok s' ∧ AgentsTotal s' ∧
      humanName? s' = humanName? s := by
  induction names generalizing s with
  | nil => exact ⟨s, rfl, ht, rfl⟩
  | cons n rest ih =>
    cases hf : s.agents.find? (fun x => x.name == n) with
    | none =>
      have hstep : runRoundConsole now (n :: rest) s = runRoundConsole now rest s := by
        rw [runRoundConsole, hf]
      rw [hstep]
      exact ih s ht
    | some a =>
      by_cases hh : a.isHuman = true
      · rw [runRoundConsole_cons_human now n rest s a hf hh]
        exact ih s ht
      · have hh' : a.isHuman = false := by revert hh; cases a.isHuman <;> simp
        rw [runRoundConsole_cons_auto now n rest s a hf hh']
        have hbt := ht a (List.mem_of_find?_eq_some hf) hh' (lastMsg s.history) a.context
        cases hbv : a.behave (lastMsg s.history) a.context with
        | error e => rw [hbv] at hbt; cases hbt
        | ok c =>
          obtain ⟨s', hs', ht', hn'⟩ :=
            ih (s.addMessage { sender := n, content := c, timestamp := now })
              (agentsTotal_addMessage _ _ ht)
          refine ⟨s', hs', ht', ?_⟩
          rw [hn', humanName?_addMessage]

/-- Unfolding one loop iteration once the round result and the human lookup
are known. -/
theorem runConsoleLoop_step (fuel : Nat) (now : ℚ) (i : String) (rest : List String)
    (s s1 : ChatSession) (hn : String)
    (hs1 : runRoundConsole now (s.agents.map (fun a => a.name)) s = .ok s1)
    (hhn : humanName? s1 = some hn) :
    runConsoleLoop (fuel + 1) now (i :: rest) s
      = (if exitTokens.contains (pyLower i) = true
         then .terminated (s1.addMessage { sender := hn, content := i, timestamp := now })
                [(s1.addMessage { sender := hn, content := i, timestamp := now }).history]
         else runConsoleLoop fuel now rest
                (s1.addMessage { sender := hn, content := i, timestamp := now })) := by
  rw [runConsoleLoop, hs1]
  show (match humanName? s1 with
        | none => runConsoleLoop fuel now (i :: rest) s1
        | some hn2 =>
          if exitTokens.contains (pyLower i) = true
          then .terminated (s1.addMessage { sender := hn2, content := i, timestamp := now })
                 [(s1.addMessage { sender := hn2, content := i, timestamp := now }).history]
          else runConsoleLoop fuel now rest
                 (s1.addMessage { sender := hn2, content := i, timestamp := now })) = _
  rw [hhn]

/-- If a human agent is registered, every automated agent is healthy, and the
input script contains an exit token, the console loop reaches the terminated
state having saved the full history exactly once. -/
theorem consoleLoop_terminates (inputs : List String) (fuel : Nat) (now : ℚ)
    (s : ChatSession) (ht : AgentsTotal s) (hhum : (humanName? s).isSome = true)
    (hlen : inputs.length ≤ fuel)
    (hex : ∃ i ∈ inputs, exitTokens.contains (pyLower i) = true) :
    ∃ s', runConsoleLoop fuel now inputs s = .terminated s' [s'.history] := by
  induction inputs generalizing fuel s with
  | nil =>
    obtain ⟨i, hi, _⟩ := hex
    cases hi
  | cons i rest ih =>
    cases fuel with
    | zero => simp at hlen
    | succ fuel =>
      obtain ⟨s1, hs1, ht1, hh1⟩ := roundConsole_ok now _ s ht
      have hhum1 : (humanName? s1).isSome = true := by rw [hh1]; exact hhum
      obtain ⟨hn, hhn⟩ := Option.isSome_iff_exists.mp hhum1
      rw [runConsoleLoop_step fuel now i rest s s1 hn hs1 hhn]
      by_cases hexit : exitTokens.contains (pyLower i) = true
      · rw [if_pos hexit]
        exact ⟨_, rfl⟩
      · rw [if_neg hexit]
        have hex' : ∃ j ∈ rest, exitTokens.contains (pyLower j) = true := by
          obtain ⟨j, hj, hjex⟩ := hex
          rcases List.mem_cons.mp hj with rfl | hj'
          · exact absurd hjex hexit
          · exact ⟨j, hj', hjex⟩
        have hlen' : rest.length ≤ fuel := by
          simp only [List.length_cons] at hlen
          omega
        refine ih fuel _ (agentsTotal_addMessage _ _ ht1) ?_ hlen' hex'
        rw [humanName?_addMessage, hhn]
        rfl

/-- C9: for every session run with a registered human and healthy automated
agents, when some human-provided input case-insensitively equals one of the
exit tokens `exit`, `quit`, `bye`, the turn loop ends in the terminated state
and the full history is persisted exactly once (the `saved` log is the
singleton holding the final history). -/
theorem c9_exit_terminates (fuel : Nat) (now : ℚ) (prompt : String)
    (inputs : List String) (s : ChatSession)
    (ht : AgentsTotal s) (hhum : (humanName? s).isSome = true)
    (hlen : inputs.length ≤ fuel)
    (hex : ∃ i ∈ inputs, exitTokens.contains (pyLower i) = true) :
    ∃ s', runConsole fuel now prompt inputs s = .terminated s' [s'.history] := by
  unfold runConsole
  refine consoleLoop_terminates inputs fuel now _
    (agentsTotal_addMessage _ _ ht) ?_ hlen hex
  rw [humanName?_addMessage]
  exact hhum

/-- Witness for `c9_exit_terminates`: one healthy agent, a human, input
`"EXIT"`. -/
theorem c9_exit_terminates_witness :
    ∃ s', runConsole 1 1 "hi" ["EXIT"] { agents := [agentY, humanH], history := [] }
      = .terminated s' [s'.history] := by
  refine c9_exit_terminates 1 1 "hi" ["EXIT"] _ ?_ rfl (by decide) ?_
  · intro a ha hah m c
    rcases List.mem_cons.mp ha with rfl | ha'
    · rfl
    · rcases List.mem_cons.mp ha' with rfl | ha''
      · exact absurd hah (by decide)
      · cases ha''
  · exact ⟨"EXIT", List.mem_singleton.mpr rfl, by decide⟩

/-! ### Agent contexts across session operations (C10) -/

/-- The context of the agent registered under `n`, `none` if unregistered. -/
def agentContext? (s : ChatSession) (n : String) : Option (List Message) :=
  (s.agents.find? (fun x => x.name == n)).map (fun x => x.context)

theorem agentContext?_addMessage (s : ChatSession) (m : Message) (n : String) :
    agentContext? (s.addMessage m) n = (agentContext? s n).map (· ++ [m]) := by
  unfold agentContext? ChatSession.addMessage
  rw [find?_contextMap, Option.map_map, Option.map_map]
  rfl

/-- A Bool that is not `true` is `false`. -/
theorem bool_eq_false {b : Bool} (h : ¬ b = true) : b = false := by
  cases b
  · rfl
  · exact absurd rfl h

/-- Agents untouched by a dict assignment keep their entries. -/
theorem replace_nomatch (a : Agent) (t : List Agent)
    (hno : t.any (fun b => b.name == a.name) = false) :
    t.map (fun b => if b.name == a.name then a else b) = t := by
  induction t with
  | nil => rfl
  | cons c u ih =>
    rw [List.any_cons, Bool.or_eq_false_iff] at hno
    show (if (c.name == a.name) = true then a else c) :: u.map _ = c :: u
    rw [if_neg (by rw [hno.1]; exact Bool.false_ne_true), ih hno.2]

/-- Dict assignment over an existing key: lookup afterwards. -/
theorem replace_find? (l : List Agent) (a : Agent) (n : String)
    (hmem : l.any (fun b => b.name == a.name) = true) :
    ((l.map (fun b => if b.name == a.name then a else b)).find?
        (fun x => x.name == n)).map (fun x => x.context)
      = if (a.name == n) = true then some a.context
        else (l.find? (fun x => x.name == n)).map (fun x => x.context) := by
  induction l with
  | nil => cases hmem
  | cons b t ih =>
    rw [List.any_cons, Bool.or_eq_true_iff] at hmem
    show (List.find? (fun x => x.name == n)
        ((if (b.name == a.name) = true then a else b) :: t.map _)).map (fun x => x.context) = _
    by_cases hba : (b.name == a.name) = true
    · rw [if_pos hba]
      by_cases han : (a.name == n) = true
      · rw [if_pos han]
        simp only [List.find?_cons, han, Option.map_some']
      · have hanf := bool_eq_false han
        have hbnf : (b.name == n) = false := by
          rw [beq_iff_eq] at hba
          rw [hba]
          exact hanf
        rw [if_neg han]
        simp only [List.find?_cons, hanf, hbnf]
        by_cases hta : t.any (fun b => b.name == a.name) = true
        · have := ih hta
          rw [if_neg han] at this
          exact this
        · rw [replace_nomatch a t (bool_eq_false hta)]
    · rw [if_neg hba]
      by_cases hbn : (b.name == n) = true
      · have han : ¬ ((a.name == n) = true) := by
          intro hcon
          rw [beq_iff_eq] at hbn hcon
          exact hba (by rw [beq_iff_eq, hbn, hcon])
        rw [if_neg han]
        simp only [List.find?_cons, hbn, Option.map_some']
      · have hbnf := bool_eq_false hbn
        simp only [List.find?_cons, hbnf]
        have hta : t.any (fun b => b.name == a.name) = true := by
          rcases hmem with h | h
          · exact absurd h hba
          · exact h
        exact ih hta

/-- Dict assignment appending a new key: lookup afterwards. -/
theorem append_find? (l : List Agent) (a : Agent) (n : String)
    (hno : l.any (fun b => b.name == a.name) = false) :
    ((l ++ [a]).find? (fun x => x.name == n)).map (fun x => x.context)
      = if (a.name == n) = true then some a.context
        else (l.find? (fun x => x.name == n)).map (fun x => x.context) := by
  induction l with
  | nil =>
    show (List.find? (fun x => x.name == n) [a]).map (fun x => x.context) = _
    by_cases han : (a.name == n) = true
    · rw [if_pos han]
      simp only [List.find?_cons, han, Option.map_some']
    · rw [if_neg han]
      simp only [List.find?_cons, bool_eq_false han]
  | cons b t ih =>
    rw [List.any_cons, Bool.or_eq_false_iff] at hno
    show (List.find? (fun x => x.name == n) (b :: (t ++ [a]))).map (fun x => x.context) = _
    by_cases hbn : (b.name == n) = true
    · have han : ¬ ((a.name == n) = true) := by
        intro hcon
        rw [beq_iff_eq] at hbn hcon
        have hb2 : (b.name == a.name) = true := by rw [beq_iff_eq, hbn, hcon]
        rw [hno.1] at hb2
        exact Bool.false_ne_true hb2
      rw [if_neg han]
      simp only [List.find?_cons, hbn, Option.map_some']
    · have hbnf := bool_eq_false hbn
      simp only [List.find?_cons, hbnf]
      exact ih hno.2

/-- `add_agent` then lookup: the assigned name now maps to the new agent's
context; other names are unaffected (last registration wins, position kept). -/
theorem agentContext?_addAgent (s : ChatSession) (a : Agent) (n : String) :
    agentContext? (s.addAgent a) n
      = if (a.name == n) = true then some a.context else agentContext? s n := by
  unfold agentContext? ChatSession.addAgent
  by_cases hany : s.agents.any (fun b => b.name == a.name) = true
  · rw [if_pos hany]
    exact replace_find? s.agents a n hany
  · rw [if_neg hany]
    exact append_find? s.agents a n (bool_eq_false hany)

/-- The operations a caller can perform on a live session. -/
inductive SessionOp where
  | addAgent (a : Agent)
  | addMessage (m : Message)

def applyOp (s : ChatSession) (op : SessionOp) : ChatSession :=
  match op with
  | .addAgent a => s.addAgent a
  | .addMessage m => s.addMessage m

def applyOps (s : ChatSession) (ops : List SessionOp) : ChatSession :=
  ops.foldl applyOp s

/-- Formalization of the claim's characterization of an agent's context: after
running `ops`, the agent registered under `n` (if any) holds exactly the
messages passed to `add_message` after its (most recent) registration. -/
def specContextAfter (acc : Option (List Message)) (ops : List SessionOp) (n : String) :
    Option (List Message) :=
  match ops with
  | [] => acc
  | .addAgent a :: rest =>
    specContextAfter (if a.name == n then some [] else acc) rest n
  | .addMessage m :: rest => specContextAfter (acc.map (· ++ [m])) rest n

/-- The messages passed to `add_message` within an operation sequence. -/
def msgsOf (ops : List SessionOp) : List Message :=
  ops.filterMap fun op =>
    match op with
    | .addMessage m => some m
    | _ => none

/-- `add_agent` never touches the history. -/
theorem addAgent_history (s : ChatSession) (a : Agent) :
    (s.addAgent a).history = s.history := by
  unfold ChatSession.addAgent
  split <;> rfl

theorem applyOps_context (ops : List SessionOp) (s : ChatSession) (n : String)
    (hfresh : ∀ a, SessionOp.addAgent a ∈ ops → a.context = []) :
    agentContext? (applyOps s ops) n = specContextAfter (agentContext? s n) ops n := by
  induction ops generalizing s with
  | nil => rfl
  | cons op rest ih =>
    cases op with
    | addMessage m =>
      show agentContext? (applyOps (s.addMessage m) rest) n
        = specContextAfter ((agentContext? s n).map (· ++ [m])) rest n
      rw [ih (s.addMessage m) (fun a ha => hfresh a (List.mem_cons_of_mem _ ha)),
        agentContext?_addMessage]
    | addAgent a =>
      have ha0 : a.context = [] := hfresh a (List.mem_cons_self _ _)
      show agentContext? (applyOps (s.addAgent a) rest) n
        = specContextAfter (if a.name == n then some [] else agentContext? s n) rest n
      rw [ih (s.addAgent a) (fun b hb => hfresh b (List.mem_cons_of_mem _ hb)),
        agentContext?_addAgent, ha0]

theorem applyOps_history (ops : List SessionOp) (s : ChatSession) :
    (applyOps s ops).history = s.history ++ msgsOf ops := by
  induction ops generalizing s with
  | nil => simp [applyOps, msgsOf, List.filterMap]
  | cons op rest ih =>
    cases op with
    | addMessage m =>
      show (applyOps (s.addMessage m) rest).history = _
      rw [ih]
      show (s.history ++ [m]) ++ msgsOf rest = s.history ++ msgsOf (.addMessage m :: rest)
      rw [List.append_assoc]
      rfl
    | addAgent a =>
      show (applyOps (s.addAgent a) rest).history = _
      rw [ih, addAgent_history]
      rfl

/-- C10: a session's agent contexts are populated only by `add_message` calls
made after the agent's registration: a hydrated session starts with no agents,
and for any operation sequence (fresh agents registered, messages added) the
context of the agent registered under `n` is exactly the claim's
characterization `specContextAfter`, while the hydrated messages sit in the
history ahead of the added ones without entering any context. -/
theorem c10_context_registration :
    (∀ (fc : FileContent) (now : ℚ) (s0 : ChatSession),
        ChatSession.fromHistory fc now = .ok s0 → s0.agents = []) ∧
    (∀ (s0 : ChatSession), s0.agents = [] →
      ∀ (ops : List SessionOp), (∀ a, SessionOp.addAgent a ∈ ops → a.context = []) →
      ∀ n, agentContext? (applyOps s0 ops) n = specContextAfter none ops n ∧
        (applyOps s0 ops).history = s0.history ++ msgsOf ops) := by
  constructor
  · intro fc now s0 h
    cases fc with
    | absent =>
      cases h
      rfl
    | malformed => cases h
    | parsed recs =>
      have h' : Except.map (fun ms => { agents := [], history := ms : ChatSession })
          (loadRecords recs now) = .ok s0 := h
      cases hlr : loadRecords recs now with
      | error e => rw [hlr] at h'; cases h'
      | ok ms =>
        rw [hlr] at h'
        cases h'
        rfl
  · intro s0 hs0 ops hfresh n
    refine ⟨?_, applyOps_history ops s0⟩
    rw [applyOps_context ops s0 n hfresh]
    have : agentContext? s0 n = none := by
      unfold agentContext?
      rw [hs0]
      rfl
    rw [this]

/-- Witness for `c10_context_registration`: hydrate one message, register a
fresh agent, add one message — the agent's context is only the added message. -/
theorem c10_context_registration_witness :
    (agentContext? (applyOps { agents := [], history := [c2w] }
          [SessionOp.addAgent agentY,
           SessionOp.addMessage { sender := "Human", content := "hello", timestamp := 2 }]) "Y"
        = specContextAfter none
            [SessionOp.addAgent agentY,
             SessionOp.addMessage { sender := "Human", content := "hello", timestamp := 2 }] "Y" ∧
      (applyOps { agents := [], history := [c2w] }
          [SessionOp.addAgent agentY,
           SessionOp.addMessage { sender := "Human", content := "hello", timestamp := 2 }]).history
        = [c2w] ++ msgsOf
            [SessionOp.addAgent agentY,
             SessionOp.addMessage { sender := "Human", content := "hello", timestamp := 2 }]) ∧
    specContextAfter none
        [SessionOp.addAgent agentY,
         SessionOp.addMessage { sender := "Human", content := "hello", timestamp := 2 }] "Y"
      = some [{ sender := "Human", content := "hello", timestamp := 2 }] := by
  constructor
  · refine c10_context_registration.2 { agents := [], history := [c2w] } rfl _ ?_ "Y"
    intro a ha
    rcases List.mem_cons.mp ha with h | h
    · cases h
      rfl
    · rcases List.mem_cons.mp h with h2 | h2
      · cases h2
      · cases h2
  · rfl
